import Mathlib

/-!
# Time integrators of the MU5MES01 course notebooks

A shallow embedding of the explicit (central-difference) and implicit
(Newmark-β) time-stepping loops of the elastodynamics notebooks
(`Explicit_given_to_class_nonlin.ipynb` and the implicit notebook).

The finite-element collaborator (dolfinx) supplies opaque assembled
operators; here a run is described by a configuration holding the
assembled mass and linear-stiffness matrices, an opaque nonlinear
internal-force map, the Rayleigh damping coefficients, the load-schedule
parameters, the assembled unit-traction vector, and the Dirichlet
boundary data.  Degrees of freedom are indexed by `Fin nn` and scalars
are rationals (exact arithmetic).
-/

namespace MES01

open Matrix

/-- A vector of degrees of freedom. -/
abbrev Vec (nn : ℕ) := Fin nn → ℚ

/-- A square matrix over the degrees of freedom. -/
abbrev Mat (nn : ℕ) := Matrix (Fin nn) (Fin nn) ℚ

/-- `load_eval` from the notebooks: the traction magnitude ramps linearly,
reaching `sigma_max` at the cutoff time, and is `0` past the cutoff.
In the implicit notebook the cutoff is an argument (`load_eval(t, t_cutoff)`),
in the explicit notebook it is read from the enclosing scope; `sigma_max`
is read from the enclosing scope in both. -/
def load_eval (sigma_max t t_cutoff : ℚ) : ℚ :=
  if t ≤ t_cutoff then sigma_max * t / t_cutoff else 0

/-- Configuration of the explicit notebook
(`Explicit_given_to_class_nonlin.ipynb`): the assembled operators and the
notebook-level parameters fixed before the time-stepping loop. -/
structure ExpCfg (nn : ℕ) where
  /-- assembled matrix of the bilinear form `mass(u, v)` -/
  mass : Mat nn
  /-- assembled matrix of the bilinear form `stiffness_linear(u, v)` -/
  stiffness_linear : Mat nn
  /-- assembled internal-force map of `stiffness_nonlinear(u, v)`:
  for a displacement `u`, the vector whose pairing with a test function
  gives the form value (opaque, supplied by the collaborator) -/
  stiffness_nonlinear : Vec nn → Vec nn
  /-- mass-proportional damping coefficient `eta_m` -/
  eta_m : ℚ
  /-- stiffness-proportional damping coefficient `eta_k` -/
  eta_k : ℚ
  /-- peak traction magnitude `sigma_max` -/
  sigma_max : ℚ
  /-- loading cutoff time `t_cutoff` -/
  t_cutoff : ℚ
  /-- end time `t_end` of the simulation -/
  t_end : ℚ
  /-- declared number of steps `num_steps` -/
  num_steps : ℕ
  /-- assembled vector of `p_ext` for unit traction magnitude;
  the external force at traction magnitude `g` is `g • p_ext_unit` -/
  p_ext_unit : Vec nn
  /-- the boundary-constrained (clamped) degrees of freedom -/
  bc_dofs : Fin nn → Bool
  /-- prescribed boundary value `u_D` (the notebook clamps with `[0, 0]`) -/
  u_D : Vec nn
  /-- `use_linear_model`: selects `stiffness_linear` or `stiffness_nonlinear` -/
  use_linear_model : Bool

/-- `dt = t_end/num_steps` of the explicit notebook. -/
def ExpCfg.dt {nn : ℕ} (cfg : ExpCfg nn) : ℚ :=
  cfg.t_end / cfg.num_steps

/-- Assembled damping matrix: the code defines
`damping(u, v) = eta_m*mass(u, v) + eta_k*stiffness_linear(u, v)`,
always with the linear stiffness form. -/
def damping {nn : ℕ} (cfg : ExpCfg nn) : Mat nn :=
  cfg.eta_m • cfg.mass + cfg.eta_k • cfg.stiffness_linear

/-- The internal force of the stiffness in effect for the run:
`stiffness = stiffness_linear if use_linear_model else stiffness_nonlinear`. -/
def stiffness {nn : ℕ} (cfg : ExpCfg nn) (u : Vec nn) : Vec nn :=
  if cfg.use_linear_model then cfg.stiffness_linear *ᵥ u else cfg.stiffness_nonlinear u

/-- Assembled external load vector at time `t`:
`traction.value = (load_eval(t), 0)` applied through `p_ext`. -/
def f_ext {nn : ℕ} (cfg : ExpCfg nn) (t : ℚ) : Vec nn :=
  load_eval cfg.sigma_max t cfg.t_cutoff • cfg.p_ext_unit

/-- Assembled net force
`f_load = p_ext(u_bar) - stiffness(u_sol, u_bar) - damping(v_sol, u_bar)`
at displacement `u`, velocity `v` and time `t`. -/
def f_load {nn : ℕ} (cfg : ExpCfg nn) (u v : Vec nn) (t : ℚ) : Vec nn :=
  f_ext cfg t - stiffness cfg u - damping cfg *ᵥ v

/-- `dolfinx.fem.set_bc`: overwrite the constrained degrees of freedom
with the prescribed boundary value, leaving the others untouched. -/
def set_bc {nn : ℕ} (bc : Fin nn → Bool) (val : Vec nn) (x : Vec nn) : Vec nn :=
  fun i => if bc i then val i else x i

/-- The inverse lumped mass diagonal: the mass matrix is applied to the
all-ones vector (row sums) and the result inverted elementwise
(`M_lumped_inv.array[:] = 1./M_lumped_inv.array[:]`), with no zero guard. -/
def M_lumped_inv {nn : ℕ} (M : Mat nn) : Vec nn :=
  fun i => 1 / (M *ᵥ (fun _ => 1)) i

/-- The state owned by a time-stepping loop: displacement, velocity and
acceleration vectors (`u_sol`, `v_sol`/`vit_sol`, `a_sol`/`acc_sol`). -/
@[ext]
structure State (nn : ℕ) where
  /-- displacement `u_sol` -/
  u : Vec nn
  /-- velocity `v_sol` -/
  v : Vec nn
  /-- acceleration `a_sol` -/
  a : Vec nn

/-- The zero initial state (`u_sol.x.array[:] = 0.` and likewise for the
velocity and the acceleration). -/
def zeroState (nn : ℕ) : State nn :=
  ⟨0, 0, 0⟩

/-- Corrector of the explicit loop:
`v_sol.vector.axpy(dt, a_sol.vector)` then
`u_sol.vector.axpy(dt, v_sol.vector)` — the velocity is updated first and
the displacement update uses the already-updated velocity. -/
def corrector {nn : ℕ} (h : ℚ) (s : State nn) : State nn :=
  let v1 := s.v + h • s.a
  ⟨s.u + h • v1, v1, s.a⟩

/-- The lumped-mass acceleration update of step `n`:
`a_sol.x.array[:] = np.multiply(M_lumped_inv, af.array[:])` with
`af` the assembled `f_load` at traction time `(n+1)*dt`. -/
def a_solve_lumped {nn : ℕ} (cfg : ExpCfg nn) (n : ℕ) (s : State nn) : Vec nn :=
  fun i => M_lumped_inv cfg.mass i * f_load cfg s.u s.v (((n : ℚ) + 1) * cfg.dt) i

/-- The lumped-mass branch of the explicit loop up to (and excluding) the
corrector: acceleration update followed by `set_bc` on `u_sol`, `v_sol`
and `a_sol`. -/
def lumped_pre {nn : ℕ} (cfg : ExpCfg nn) (n : ℕ) (s : State nn) : State nn :=
  ⟨set_bc cfg.bc_dofs cfg.u_D s.u,
   set_bc cfg.bc_dofs cfg.u_D s.v,
   set_bc cfg.bc_dofs cfg.u_D (a_solve_lumped cfg n s)⟩

/-- One full iteration of the explicit loop with `use_lumped_mass = True`. -/
def lumped_step {nn : ℕ} (cfg : ExpCfg nn) (n : ℕ) (s : State nn) : State nn :=
  corrector cfg.dt (lumped_pre cfg n s)

/-- Exact inverse of a rational matrix, as computed by an exact LU solver:
`det⁻¹ • adjugate` (the zero matrix when the matrix is singular). -/
def matInv {nn : ℕ} (A : Mat nn) : Mat nn :=
  A.det⁻¹ • A.adjugate

/-- Modelled from the spec: the system matrix after the external solver
(`dolfinx.fem.petsc.LinearProblem(..., bcs=[bc])`) applies the Dirichlet
constraints — rows and columns of constrained degrees of freedom are
replaced by unit rows and columns.  The solver itself is external
collaborator functionality, not repository code. -/
def bc_matrix {nn : ℕ} (bc : Fin nn → Bool) (M : Mat nn) : Mat nn :=
  Matrix.of fun i j => if bc i || bc j then (if i = j then (1 : ℚ) else 0) else M i j

/-- Modelled from the spec: the right-hand side after the external solver
applies the Dirichlet constraints — constrained entries carry the
prescribed value, free entries are lifted by the constrained columns. -/
def bc_rhs {nn : ℕ} (bc : Fin nn → Bool) (val : Vec nn) (M : Mat nn) (f : Vec nn) : Vec nn :=
  fun i => if bc i then val i else f i - ∑ j, (if bc j then M i j * val j else 0)

/-- Modelled from the spec: the external linear solver — given an
operator, a right-hand side and boundary constraints, it returns the
exact solution of the constrained system (spec §6; the notebooks use an
exact LU factorization). -/
def linear_solve {nn : ℕ} (bc : Fin nn → Bool) (val : Vec nn) (M : Mat nn) (f : Vec nn) :
    Vec nn :=
  matInv (bc_matrix bc M) *ᵥ bc_rhs bc val M f

/-- The full-mass branch of the explicit loop up to (and excluding) the
corrector: `a_sol = problem.solve()` with the mass matrix as operator and
the boundary condition applied by the solver; `u_sol` and `v_sol` are not
touched in this branch. -/
def full_pre {nn : ℕ} (cfg : ExpCfg nn) (n : ℕ) (s : State nn) : State nn :=
  ⟨s.u, s.v,
   linear_solve cfg.bc_dofs cfg.u_D cfg.mass
     (f_load cfg s.u s.v (((n : ℚ) + 1) * cfg.dt))⟩

/-- One full iteration of the explicit loop with `use_lumped_mass = False`. -/
def full_step {nn : ℕ} (cfg : ExpCfg nn) (n : ℕ) (s : State nn) : State nn :=
  corrector cfg.dt (full_pre cfg n s)

/-- Trajectory of the explicit lumped-mass loop: `for n in range(N)`
applied to the state, step `n` loading the traction at `(n+1)*dt`. -/
def run_lumped {nn : ℕ} (cfg : ExpCfg nn) (s0 : State nn) : ℕ → State nn
  | 0 => s0
  | n + 1 => lumped_step cfg n (run_lumped cfg s0 n)

/-- Trajectory of the explicit full-mass loop. -/
def run_full {nn : ℕ} (cfg : ExpCfg nn) (s0 : State nn) : ℕ → State nn
  | 0 => s0
  | n + 1 => full_step cfg n (run_full cfg s0 n)

/-- Configuration of the implicit (Newmark-β) notebook: as the explicit
one, plus the Newmark parameters; the implicit notebook fixes
`stiffness = stiffness_linear`. -/
structure NmkCfg (nn : ℕ) where
  /-- assembled matrix of `mass(u, v)` -/
  mass : Mat nn
  /-- assembled matrix of `stiffness_linear(u, v)` -/
  stiffness_linear : Mat nn
  /-- `eta_m` -/
  eta_m : ℚ
  /-- `eta_k` -/
  eta_k : ℚ
  /-- Newmark parameter `gamma` -/
  gamma : ℚ
  /-- Newmark parameter `beta` -/
  beta : ℚ
  /-- `sigma_max` -/
  sigma_max : ℚ
  /-- `t_cutoff` -/
  t_cutoff : ℚ
  /-- `t_end` -/
  t_end : ℚ
  /-- `num_steps` -/
  num_steps : ℕ
  /-- assembled `p_ext` for unit traction magnitude -/
  p_ext_unit : Vec nn
  /-- the clamped degrees of freedom -/
  bc_dofs : Fin nn → Bool
  /-- prescribed boundary value `u_D` (the notebook clamps with `[0, 0]`) -/
  u_D : Vec nn

/-- `dt = t_end/num_steps` of the implicit notebook. -/
def NmkCfg.dt {nn : ℕ} (cfg : NmkCfg nn) : ℚ :=
  cfg.t_end / cfg.num_steps

/-- Damping matrix of the implicit notebook:
`damping(u, v) = eta_m*mass(u, v) + eta_k*stiffness_linear(u, v)`. -/
def dampingN {nn : ℕ} (cfg : NmkCfg nn) : Mat nn :=
  cfg.eta_m • cfg.mass + cfg.eta_k • cfg.stiffness_linear

/-- External load vector of the implicit notebook at time `t`. -/
def f_extN {nn : ℕ} (cfg : NmkCfg nn) (t : ℚ) : Vec nn :=
  load_eval cfg.sigma_max t cfg.t_cutoff • cfg.p_ext_unit

/-- The Newmark effective operator of [Eq4]:
`[A] = [M] + γΔt [C] + βΔt² [K]` (the code cell defining `A(acc, v)`
leaves the tail as an `XXX` exercise; the formula is the notebook's own
[Eq4] markdown derivation). -/
def newmark_A {nn : ℕ} (cfg : NmkCfg nn) : Mat nn :=
  cfg.mass + (cfg.gamma * cfg.dt) • dampingN cfg +
    (cfg.beta * cfg.dt ^ 2) • cfg.stiffness_linear

/-- Newmark predicted displacement of [Eq4]:
`û_n = u_n + Δt v̇_n + (Δt²/2)(1-2β) ü_n` ([Eq4] markdown; the predictor
code cell is an `XXX` exercise). -/
def u_hat {nn : ℕ} (cfg : NmkCfg nn) (s : State nn) : Vec nn :=
  s.u + cfg.dt • s.v + (cfg.dt ^ 2 / 2 * (1 - 2 * cfg.beta)) • s.a

/-- Newmark predicted velocity of [Eq4]: `v̂_n = v̇_n + Δt(1-γ) ü_n`. -/
def v_hat {nn : ℕ} (cfg : NmkCfg nn) (s : State nn) : Vec nn :=
  s.v + (cfg.dt * (1 - cfg.gamma)) • s.a

/-- The Newmark effective right-hand side of [Eq4]:
`{F(t_{n+1})} - [K]{û_n} - [C]{v̂_n}` (`f_load = p_ext(v) - XXX` in the
code cell; the formula is the notebook's [Eq4] markdown). -/
def newmark_rhs {nn : ℕ} (cfg : NmkCfg nn) (s : State nn) (t : ℚ) : Vec nn :=
  f_extN cfg t - cfg.stiffness_linear *ᵥ u_hat cfg s - dampingN cfg *ᵥ v_hat cfg s

/-- One iteration of the implicit loop: solve [Eq4] for the acceleration
(through the external solver, with the Dirichlet constraint), then the
[EQ5]/[EQ6] correctors
`u_{n+1} = û_n + Δt²β ü_{n+1}` and `v̇_{n+1} = v̂_n + Δtγ ü_{n+1}`. -/
def newmark_step {nn : ℕ} (cfg : NmkCfg nn) (n : ℕ) (s : State nn) : State nn :=
  let acc := linear_solve cfg.bc_dofs cfg.u_D (newmark_A cfg)
    (newmark_rhs cfg s (((n : ℚ) + 1) * cfg.dt))
  ⟨u_hat cfg s + (cfg.beta * cfg.dt ^ 2) • acc,
   v_hat cfg s + (cfg.gamma * cfg.dt) • acc,
   acc⟩

/-- Trajectory of the implicit loop (`for n in range(num_steps)`). -/
def run_newmark {nn : ℕ} (cfg : NmkCfg nn) (s0 : State nn) : ℕ → State nn
  | 0 => s0
  | n + 1 => newmark_step cfg n (run_newmark cfg s0 n)

/-- The discrete time axis `times = dt*np.arange(num_steps+1)`. -/
def times {nn : ℕ} (cfg : ExpCfg nn) (n : ℕ) : ℚ :=
  (n : ℚ) * cfg.dt

/-- The discrete time axis of the implicit notebook. -/
def timesN {nn : ℕ} (cfg : NmkCfg nn) (n : ℕ) : ℚ :=
  (n : ℚ) * cfg.dt

/-- Value of the assembled mass form `mass(w, z)`. -/
def mass_form {nn : ℕ} (cfg : ExpCfg nn) (w z : Vec nn) : ℚ :=
  (cfg.mass *ᵥ w) ⬝ᵥ z

/-- Value of the assembled linear stiffness form `stiffness_linear(w, z)`. -/
def stiffness_linear_form {nn : ℕ} (cfg : ExpCfg nn) (w z : Vec nn) : ℚ :=
  (cfg.stiffness_linear *ᵥ w) ⬝ᵥ z

/-- Value of the stiffness form in effect for the run (`stiffness`),
evaluated at displacement `w` against test vector `z`. -/
def stiffness_form {nn : ℕ} (cfg : ExpCfg nn) (w z : Vec nn) : ℚ :=
  stiffness cfg w ⬝ᵥ z

/-- Value of the assembled damping form `damping(w, z)`. -/
def damping_form {nn : ℕ} (cfg : ExpCfg nn) (w z : Vec nn) : ℚ :=
  (damping cfg *ᵥ w) ⬝ᵥ z

/-! Concrete single- and two-dof instances used to evaluate the theorems
on explicit inputs. -/

/-- The all-ones vector on one degree of freedom. -/
def ones1 : Vec 1 :=
  fun _ => 1

/-- A one-dof nonlinear run (`use_linear_model = False`) whose in-effect
(nonlinear) stiffness form differs from the linear one. -/
def cfgNl1 : ExpCfg 1 where
  mass := 0
  stiffness_linear := 0
  stiffness_nonlinear := fun _ => ones1
  eta_m := 1 / 100
  eta_k := 1 / 100000
  sigma_max := 1 / 20
  t_cutoff := 2
  t_end := 7
  num_steps := 7000
  p_ext_unit := ones1
  bc_dofs := fun _ => false
  u_D := 0
  use_linear_model := false

/-- A one-dof clamped linear run with unit mass and a single step. -/
def cfgClamped1 : ExpCfg 1 where
  mass := !![1]
  stiffness_linear := 0
  stiffness_nonlinear := fun _ => 0
  eta_m := 0
  eta_k := 0
  sigma_max := 1
  t_cutoff := 1
  t_end := 1
  num_steps := 1
  p_ext_unit := ones1
  bc_dofs := fun _ => true
  u_D := 0
  use_linear_model := true

/-- A state violating the clamp: unit displacement at the constrained dof. -/
def stClamped1 : State 1 :=
  ⟨ones1, 0, 0⟩

/-- A two-dof unconstrained linear run whose (consistent) mass matrix is
not diagonal, loaded along the first dof. -/
def cfgFree2 : ExpCfg 2 where
  mass := !![1, 1; 1, 0]
  stiffness_linear := 0
  stiffness_nonlinear := fun _ => 0
  eta_m := 0
  eta_k := 0
  sigma_max := 1
  t_cutoff := 1
  t_end := 1
  num_steps := 1
  p_ext_unit := ![1, 0]
  bc_dofs := fun _ => false
  u_D := 0
  use_linear_model := true

/-- A two-dof unconstrained linear run whose mass matrix is diagonal but
singular (a zero diagonal entry), loaded on both dofs. -/
def cfgSing2 : ExpCfg 2 where
  mass := Matrix.diagonal ![0, 1]
  stiffness_linear := 0
  stiffness_nonlinear := fun _ => 0
  eta_m := 0
  eta_k := 0
  sigma_max := 1
  t_cutoff := 1
  t_end := 1
  num_steps := 1
  p_ext_unit := ![1, 1]
  bc_dofs := fun _ => false
  u_D := 0
  use_linear_model := true

/-- A one-dof clamped linear run used to instantiate the hypotheses of
the boundary-condition theorems. -/
def cfgBc1 : ExpCfg 1 where
  mass := !![1]
  stiffness_linear := !![1]
  stiffness_nonlinear := fun _ => 0
  eta_m := 1 / 100
  eta_k := 1 / 100000
  sigma_max := 1
  t_cutoff := 1
  t_end := 1
  num_steps := 1
  p_ext_unit := ones1
  bc_dofs := fun _ => true
  u_D := 0
  use_linear_model := true

/-- A one-dof clamped linear run with zero peak traction. -/
def cfgQuiet1 : ExpCfg 1 where
  mass := !![1]
  stiffness_linear := !![1]
  stiffness_nonlinear := fun _ => 0
  eta_m := 1 / 100
  eta_k := 1 / 100000
  sigma_max := 0
  t_cutoff := 2
  t_end := 7
  num_steps := 7000
  p_ext_unit := ones1
  bc_dofs := fun _ => true
  u_D := 0
  use_linear_model := true

/-- A one-dof free run with the diagonal mass matrix `[2]`. -/
def cfgDiag1 : ExpCfg 1 where
  mass := Matrix.diagonal ![2]
  stiffness_linear := !![1]
  stiffness_nonlinear := fun _ => 0
  eta_m := 1 / 100
  eta_k := 1 / 100000
  sigma_max := 1
  t_cutoff := 1
  t_end := 1
  num_steps := 2
  p_ext_unit := ones1
  bc_dofs := fun _ => false
  u_D := 0
  use_linear_model := true

/-- A one-dof clamped Newmark run with the notebook parameters
`gamma = 1/2`, `beta = 1/4`. -/
def cfgNmk1 : NmkCfg 1 where
  mass := !![1]
  stiffness_linear := !![1]
  eta_m := 1 / 100
  eta_k := 1 / 100000
  gamma := 1 / 2
  beta := 1 / 4
  sigma_max := 1 / 100
  t_cutoff := 39 / 20
  t_end := 10
  num_steps := 500
  p_ext_unit := ones1
  bc_dofs := fun _ => true
  u_D := 0

/-- A one-dof unconstrained Newmark run with trivial operators, used to
evaluate the Newmark consistency theorem on explicit data. -/
def cfgNmkFree1 : NmkCfg 1 where
  mass := !![1]
  stiffness_linear := 0
  eta_m := 0
  eta_k := 0
  gamma := 1 / 2
  beta := 1 / 4
  sigma_max := 1
  t_cutoff := 1
  t_end := 1
  num_steps := 1
  p_ext_unit := ones1
  bc_dofs := fun _ => false
  u_D := 0

/-! ## Theorems -/

/-- Claim C1: Newmark-β consistency — for every state `(u_n, v_n, a_n)`,
parameters `γ, β`, time step `Δt` and load `F(t_{n+1})`, if `a_{n+1}`
solves the effective system
`(M + γΔt C + βΔt² K) a_{n+1} = F(t_{n+1}) - K û_n - C v̂_n` with the
[Eq4] predictors, then the [EQ5]/[EQ6] corrector outputs
`u_{n+1} = û_n + βΔt² a_{n+1}` and `v_{n+1} = v̂_n + γΔt a_{n+1}` satisfy
the discretized equation of motion
`M a_{n+1} + C v_{n+1} + K u_{n+1} = F(t_{n+1})`. -/
theorem newmark_consistency {nn : ℕ} (cfg : NmkCfg nn) (s : State nn) (F a1 : Vec nn)
    (h : newmark_A cfg *ᵥ a1 =
      F - cfg.stiffness_linear *ᵥ u_hat cfg s - dampingN cfg *ᵥ v_hat cfg s) :
    cfg.mass *ᵥ a1 + dampingN cfg *ᵥ (v_hat cfg s + (cfg.gamma * cfg.dt) • a1)
      + cfg.stiffness_linear *ᵥ (u_hat cfg s + (cfg.beta * cfg.dt ^ 2) • a1) = F := by
  rw [newmark_A, Matrix.add_mulVec, Matrix.add_mulVec, Matrix.smul_mulVec_assoc,
    Matrix.smul_mulVec_assoc, sub_sub, eq_sub_iff_add_eq] at h
  rw [Matrix.mulVec_add, Matrix.mulVec_add, Matrix.mulVec_smul, Matrix.mulVec_smul, ← h]
  abel

/-- Witness for `newmark_consistency`: the one-dof run `cfgNmkFree1` with
unit mass, no stiffness and no damping, zero previous state, unit load
and unit acceleration. -/
theorem newmark_consistency_witness :
    (newmark_A cfgNmkFree1 *ᵥ ones1 =
      ones1 - cfgNmkFree1.stiffness_linear *ᵥ u_hat cfgNmkFree1 (zeroState 1)
        - dampingN cfgNmkFree1 *ᵥ v_hat cfgNmkFree1 (zeroState 1)) ∧
    cfgNmkFree1.mass *ᵥ ones1
      + dampingN cfgNmkFree1 *ᵥ
        (v_hat cfgNmkFree1 (zeroState 1) + (cfgNmkFree1.gamma * cfgNmkFree1.dt) • ones1)
      + cfgNmkFree1.stiffness_linear *ᵥ
        (u_hat cfgNmkFree1 (zeroState 1) + (cfgNmkFree1.beta * cfgNmkFree1.dt ^ 2) • ones1)
      = ones1 := by
  have hW : newmark_A cfgNmkFree1 *ᵥ ones1 =
      ones1 - cfgNmkFree1.stiffness_linear *ᵥ u_hat cfgNmkFree1 (zeroState 1)
        - dampingN cfgNmkFree1 *ᵥ v_hat cfgNmkFree1 (zeroState 1) := by
    funext i
    fin_cases i
    norm_num [newmark_A, dampingN, NmkCfg.dt, cfgNmkFree1, u_hat, v_hat, zeroState, ones1,
      Matrix.mulVec, dotProduct]
  exact ⟨hW, newmark_consistency cfgNmkFree1 (zeroState 1) ones1 ones1 hW⟩

/-- Claim C4: the load schedule evaluator is a pure function of the
elapsed time and the cutoff: for `t_c > 0` it returns `σ_max·t/t_c` when
`t ≤ t_c`, exactly `σ_max` at `t = t_c`, and `0` when `t > t_c`. -/
theorem load_eval_spec (sm t tc : ℚ) (h : 0 < tc) :
    (t ≤ tc → load_eval sm t tc = sm * t / tc) ∧
    load_eval sm tc tc = sm ∧
    (tc < t → load_eval sm t tc = 0) := by
  refine ⟨fun ht => ?_, ?_, fun ht => ?_⟩
  · rw [load_eval, if_pos ht]
  · rw [load_eval, if_pos le_rfl, mul_div_assoc, div_self h.ne', mul_one]
  · rw [load_eval, if_neg (not_le.mpr ht)]

/-- Witness for `load_eval_spec` at `σ_max = 3`, `t = 1`, `t_c = 2`. -/
theorem load_eval_spec_witness :
    ((0 : ℚ) < 2) ∧
    (((1 : ℚ) ≤ 2 → load_eval 3 1 2 = 3 * 1 / 2) ∧
      load_eval 3 2 2 = 3 ∧ ((2 : ℚ) < 1 → load_eval 3 1 2 = 0)) :=
  ⟨by norm_num, load_eval_spec 3 1 2 (by norm_num)⟩

/-- Claim C8, counterexample: in a nonlinear run (`use_linear_model =
False`) the damping form does not equal `η_m·M + η_k·K` with `K` the
stiffness in effect for the run — the code builds `damping` from
`stiffness_linear` unconditionally. -/
theorem damping_in_effect_cex :
    damping_form cfgNl1 ones1 ones1 ≠
      cfgNl1.eta_m * mass_form cfgNl1 ones1 ones1
        + cfgNl1.eta_k * stiffness_form cfgNl1 ones1 ones1 := by
  norm_num [damping_form, mass_form, stiffness_form, stiffness, damping, cfgNl1, ones1,
    Matrix.mulVec, dotProduct]

/-- Claim C8 (amended): the damping bilinear form equals `η_m` times the
mass form plus `η_k` times the *linear* stiffness form, in every run —
also in the nonlinear case, where the stiffness in effect differs:
`damping(u, v) = eta_m*mass(u, v) + eta_k*stiffness_linear(u, v)`. -/
theorem damping_form_eq {nn : ℕ} (cfg : ExpCfg nn) (w z : Vec nn) :
    damping_form cfg w z =
      cfg.eta_m * mass_form cfg w z + cfg.eta_k * stiffness_linear_form cfg w z := by
  rw [damping_form, damping, mass_form, stiffness_linear_form, Matrix.add_mulVec,
    Matrix.smul_mulVec_assoc, Matrix.smul_mulVec_assoc, Matrix.add_dotProduct,
    Matrix.smul_dotProduct, Matrix.smul_dotProduct, smul_eq_mul, smul_eq_mul]

/-- Claim C10: the inverse lumped mass diagonal is the unguarded
elementwise reciprocal of the mass-matrix row sums; when every row sum is
nonzero, every entry is a genuine (nonzero) inverse of its row sum, so
the elementwise acceleration update divides by no zero. -/
theorem lumped_inverse_total {nn : ℕ} (M : Mat nn)
    (h : ∀ i, (M *ᵥ (fun _ => 1)) i ≠ 0) (i : Fin nn) :
    M_lumped_inv M i * (M *ᵥ (fun _ => 1)) i = 1 ∧ M_lumped_inv M i ≠ 0 := by
  constructor
  · rw [M_lumped_inv, one_div, inv_mul_cancel₀ (h i)]
  · rw [M_lumped_inv]
    exact one_div_ne_zero (h i)

/-- `matInv` agrees with the Mathlib matrix inverse over the rationals. -/
theorem matInv_eq_inv {nn : ℕ} (A : Mat nn) : matInv A = A⁻¹ := by
  rw [matInv, Matrix.inv_def, Ring.inverse_eq_inv]

/-- At a constrained degree of freedom, the modelled external solve with
zero prescribed value returns zero, whatever the operator and the load. -/
theorem linear_solve_bc_dof {nn : ℕ} (bc : Fin nn → Bool) (M : Mat nn) (f : Vec nn)
    (i : Fin nn) (hi : bc i = true) :
    linear_solve bc 0 M f i = 0 := by
  by_cases hdet : IsUnit (bc_matrix bc M).det
  · have hsol : bc_matrix bc M *ᵥ linear_solve bc 0 M f = bc_rhs bc 0 M f := by
      rw [linear_solve, matInv_eq_inv, Matrix.mulVec_mulVec,
        Matrix.mul_nonsing_inv _ hdet, Matrix.one_mulVec]
    have hrow : (bc_matrix bc M *ᵥ linear_solve bc 0 M f) i = linear_solve bc 0 M f i := by
      have hBij : ∀ j, bc_matrix bc M i j = if i = j then 1 else 0 := by
        intro j
        simp [bc_matrix, hi]
      simp [Matrix.mulVec, dotProduct, hBij, ite_mul]
    rw [← hrow, hsol, bc_rhs, if_pos hi, Pi.zero_apply]
  · rw [linear_solve, matInv_eq_inv, Matrix.nonsing_inv_apply_not_isUnit _ hdet,
      Matrix.zero_mulVec, Pi.zero_apply]

/-- Witness for `lumped_inverse_total` at the one-dof mass matrix `[2]`. -/
theorem lumped_inverse_total_witness :
    (∀ i, ((!![(2 : ℚ)]) *ᵥ (fun _ => 1)) i ≠ 0) ∧
    (M_lumped_inv !![(2 : ℚ)] 0 * ((!![(2 : ℚ)]) *ᵥ (fun _ => 1)) 0 = 1 ∧
      M_lumped_inv !![(2 : ℚ)] 0 ≠ 0) := by
  have hw : ∀ i : Fin 1, ((!![(2 : ℚ)]) *ᵥ (fun _ => 1)) i ≠ 0 := by
    intro i
    fin_cases i
    norm_num [Matrix.mulVec, dotProduct]
  exact ⟨hw, lumped_inverse_total !![(2 : ℚ)] hw 0⟩

/-- `set_bc` is the identity on a vector that already carries the
prescribed values at the constrained degrees of freedom. -/
theorem set_bc_eq_self {nn : ℕ} (bc : Fin nn → Bool) (val x : Vec nn)
    (h : ∀ i, bc i = true → x i = val i) :
    set_bc bc val x = x := by
  funext i
  by_cases hbc : bc i = true
  · rw [set_bc, if_pos hbc, h i hbc]
  · rw [set_bc, if_neg hbc]

/-- Claim C2: one explicit lumped-mass iteration at step `n` from a state
whose constrained degrees of freedom hold the prescribed values computes
the net force as the external load at `t_{n+1} = (n+1)Δt` minus the
stiffness response at `u_n` minus the damping response at `v_n`, sets the
acceleration to the elementwise product of the precomputed inverse lumped
mass diagonal with that net force, then corrects
`v_{n+1} = v_n + Δt a_{n+1}` followed by `u_{n+1} = u_n + Δt v_{n+1}` —
the displacement update using the already-updated velocity. -/
theorem explicit_step_spec {nn : ℕ} (cfg : ExpCfg nn) (n : ℕ) (s : State nn)
    (hu : ∀ i, cfg.bc_dofs i = true → s.u i = cfg.u_D i)
    (hv : ∀ i, cfg.bc_dofs i = true → s.v i = cfg.u_D i) :
    (∀ i, a_solve_lumped cfg n s i =
      M_lumped_inv cfg.mass i *
        (f_ext cfg (((n : ℚ) + 1) * cfg.dt) i - stiffness cfg s.u i
          - (damping cfg *ᵥ s.v) i)) ∧
    (lumped_step cfg n s).v = s.v + cfg.dt • (lumped_step cfg n s).a ∧
    (lumped_step cfg n s).u = s.u + cfg.dt • (lumped_step cfg n s).v := by
  have hsu : set_bc cfg.bc_dofs cfg.u_D s.u = s.u := set_bc_eq_self _ _ _ hu
  have hsv : set_bc cfg.bc_dofs cfg.u_D s.v = s.v := set_bc_eq_self _ _ _ hv
  refine ⟨fun i => ?_, ?_, ?_⟩
  · rw [a_solve_lumped, f_load, Pi.sub_apply, Pi.sub_apply]
  · simp only [lumped_step, corrector, lumped_pre, hsu, hsv]
  · simp only [lumped_step, corrector, lumped_pre, hsu, hsv]

/-- Witness for `explicit_step_spec`: the clamped one-dof run `cfgBc1`
started from the zero state, at step `0`. -/
theorem explicit_step_spec_witness :
    (∀ i, cfgBc1.bc_dofs i = true → (zeroState 1).u i = cfgBc1.u_D i) ∧
    (∀ i, cfgBc1.bc_dofs i = true → (zeroState 1).v i = cfgBc1.u_D i) ∧
    ((∀ i, a_solve_lumped cfgBc1 0 (zeroState 1) i =
      M_lumped_inv cfgBc1.mass i *
        (f_ext cfgBc1 (((0 : ℚ) + 1) * cfgBc1.dt) i - stiffness cfgBc1 (zeroState 1).u i
          - (damping cfgBc1 *ᵥ (zeroState 1).v) i)) ∧
    (lumped_step cfgBc1 0 (zeroState 1)).v =
      (zeroState 1).v + cfgBc1.dt • (lumped_step cfgBc1 0 (zeroState 1)).a ∧
    (lumped_step cfgBc1 0 (zeroState 1)).u =
      (zeroState 1).u + cfgBc1.dt • (lumped_step cfgBc1 0 (zeroState 1)).v) := by
  have h0 : ∀ i, cfgBc1.bc_dofs i = true → (zeroState 1).u i = cfgBc1.u_D i := by
    intro i _
    rfl
  have h0v : ∀ i, cfgBc1.bc_dofs i = true → (zeroState 1).v i = cfgBc1.u_D i := by
    intro i _
    rfl
  exact ⟨h0, h0v, explicit_step_spec cfgBc1 0 (zeroState 1) h0 h0v⟩

/-- Along the lumped-mass explicit trajectory from the zero state of a
clamped run, the constrained degrees of freedom of the displacement, the
velocity and the acceleration stay at zero. -/
theorem run_lumped_bc_zero {nn : ℕ} (cfg : ExpCfg nn) (hD : cfg.u_D = 0) (n : ℕ)
    (i : Fin nn) (hi : cfg.bc_dofs i = true) :
    (run_lumped cfg (zeroState nn) n).u i = 0 ∧ (run_lumped cfg (zeroState nn) n).v i = 0 ∧
      (run_lumped cfg (zeroState nn) n).a i = 0 := by
  cases n with
  | zero => exact ⟨rfl, rfl, rfl⟩
  | succ n =>
    refine ⟨?_, ?_, ?_⟩ <;>
      simp [run_lumped, lumped_step, corrector, lumped_pre, set_bc, hi, hD]

/-- Along the full-mass explicit trajectory from the zero state of a
clamped run, the constrained degrees of freedom of the displacement, the
velocity and the acceleration stay at zero. -/
theorem run_full_bc_zero {nn : ℕ} (cfg : ExpCfg nn) (hD : cfg.u_D = 0) (n : ℕ)
    (i : Fin nn) (hi : cfg.bc_dofs i = true) :
    (run_full cfg (zeroState nn) n).u i = 0 ∧ (run_full cfg (zeroState nn) n).v i = 0 ∧
      (run_full cfg (zeroState nn) n).a i = 0 := by
  induction n with
  | zero => exact ⟨rfl, rfl, rfl⟩
  | succ n ih =>
    obtain ⟨ihu, ihv, -⟩ := ih
    have ha : (full_pre cfg n (run_full cfg (zeroState nn) n)).a i = 0 := by
      rw [full_pre, hD]
      exact linear_solve_bc_dof _ _ _ i hi
    refine ⟨?_, ?_, ?_⟩ <;>
      simp [run_full, full_step, corrector, full_pre, full_pre, hD] at ha ⊢ <;>
      simp [ihu, ihv, ha]

/-- Along the Newmark trajectory from the zero state of a clamped run,
the constrained degrees of freedom of the displacement, the velocity and
the acceleration stay at zero. -/
theorem run_newmark_bc_zero {nn : ℕ} (cfg : NmkCfg nn) (hD : cfg.u_D = 0) (n : ℕ)
    (i : Fin nn) (hi : cfg.bc_dofs i = true) :
    (run_newmark cfg (zeroState nn) n).u i = 0 ∧
      (run_newmark cfg (zeroState nn) n).v i = 0 ∧
      (run_newmark cfg (zeroState nn) n).a i = 0 := by
  induction n with
  | zero => exact ⟨rfl, rfl, rfl⟩
  | succ n ih =>
    obtain ⟨ihu, ihv, iha⟩ := ih
    have hhat : u_hat cfg (run_newmark cfg (zeroState nn) n) i = 0 ∧
        v_hat cfg (run_newmark cfg (zeroState nn) n) i = 0 := by
      constructor <;> simp [u_hat, v_hat, ihu, ihv, iha]
    have ha : linear_solve cfg.bc_dofs cfg.u_D (newmark_A cfg)
        (newmark_rhs cfg (run_newmark cfg (zeroState nn) n)
          (((n : ℚ) + 1) * cfg.dt)) i = 0 := by
      rw [hD]
      exact linear_solve_bc_dof _ _ _ i hi
    refine ⟨?_, ?_, ?_⟩ <;> simp [run_newmark, newmark_step, hhat.1, hhat.2, ha]

/-- Claim C3: starting from the zero state, after every corrector step of
every scheme — explicit lumped-mass, explicit full-mass and implicit
Newmark-β — every boundary-constrained degree of freedom of the
displacement holds its prescribed (clamped, zero) value, and re-applying
the boundary condition leaves the displacement unchanged. -/
theorem bc_invariant_schemes {nn : ℕ} (cfgE : ExpCfg nn) (cfgN : NmkCfg nn)
    (hDE : cfgE.u_D = 0) (hDN : cfgN.u_D = 0) (n : ℕ) :
    (∀ i, cfgE.bc_dofs i = true →
      (run_lumped cfgE (zeroState nn) n).u i = cfgE.u_D i ∧
      (run_full cfgE (zeroState nn) n).u i = cfgE.u_D i) ∧
    (∀ i, cfgN.bc_dofs i = true →
      (run_newmark cfgN (zeroState nn) n).u i = cfgN.u_D i) ∧
    set_bc cfgE.bc_dofs cfgE.u_D (run_lumped cfgE (zeroState nn) n).u
      = (run_lumped cfgE (zeroState nn) n).u ∧
    set_bc cfgE.bc_dofs cfgE.u_D (run_full cfgE (zeroState nn) n).u
      = (run_full cfgE (zeroState nn) n).u ∧
    set_bc cfgN.bc_dofs cfgN.u_D (run_newmark cfgN (zeroState nn) n).u
      = (run_newmark cfgN (zeroState nn) n).u := by
  have hL : ∀ i, cfgE.bc_dofs i = true → (run_lumped cfgE (zeroState nn) n).u i = cfgE.u_D i :=
    fun i hi => by rw [(run_lumped_bc_zero cfgE hDE n i hi).1, hDE, Pi.zero_apply]
  have hF : ∀ i, cfgE.bc_dofs i = true → (run_full cfgE (zeroState nn) n).u i = cfgE.u_D i :=
    fun i hi => by rw [(run_full_bc_zero cfgE hDE n i hi).1, hDE, Pi.zero_apply]
  have hN : ∀ i, cfgN.bc_dofs i = true → (run_newmark cfgN (zeroState nn) n).u i = cfgN.u_D i :=
    fun i hi => by rw [(run_newmark_bc_zero cfgN hDN n i hi).1, hDN, Pi.zero_apply]
  exact ⟨fun i hi => ⟨hL i hi, hF i hi⟩, hN,
    set_bc_eq_self _ _ _ hL, set_bc_eq_self _ _ _ hF, set_bc_eq_self _ _ _ hN⟩

/-- Witness for `bc_invariant_schemes`: the clamped one-dof runs `cfgBc1`
and `cfgNmk1` after one step. -/
theorem bc_invariant_schemes_witness :
    cfgBc1.u_D = 0 ∧ cfgNmk1.u_D = 0 ∧
    ((∀ i, cfgBc1.bc_dofs i = true →
      (run_lumped cfgBc1 (zeroState 1) 1).u i = cfgBc1.u_D i ∧
      (run_full cfgBc1 (zeroState 1) 1).u i = cfgBc1.u_D i) ∧
    (∀ i, cfgNmk1.bc_dofs i = true →
      (run_newmark cfgNmk1 (zeroState 1) 1).u i = cfgNmk1.u_D i) ∧
    set_bc cfgBc1.bc_dofs cfgBc1.u_D (run_lumped cfgBc1 (zeroState 1) 1).u
      = (run_lumped cfgBc1 (zeroState 1) 1).u ∧
    set_bc cfgBc1.bc_dofs cfgBc1.u_D (run_full cfgBc1 (zeroState 1) 1).u
      = (run_full cfgBc1 (zeroState 1) 1).u ∧
    set_bc cfgNmk1.bc_dofs cfgNmk1.u_D (run_newmark cfgNmk1 (zeroState 1) 1).u
      = (run_newmark cfgNmk1 (zeroState 1) 1).u) :=
  ⟨rfl, rfl, bc_invariant_schemes cfgBc1 cfgNmk1 rfl rfl 1⟩

/-- The modelled external solve of a homogeneous constrained system with
zero load is zero. -/
theorem linear_solve_zero {nn : ℕ} (bc : Fin nn → Bool) (M : Mat nn) :
    linear_solve bc 0 M 0 = 0 := by
  have hrhs : bc_rhs bc 0 M 0 = 0 := by
    funext i
    simp [bc_rhs]
  rw [linear_solve, hrhs, Matrix.mulVec_zero]

/-- Claim C6, counterexample: in the full-mass branch the boundary
condition is not re-imposed on the displacement after the acceleration
solve — from a state with unit displacement at the clamped dof, the state
fed to the corrector still carries the unit value, not the prescribed
zero. -/
theorem explicit_bc_reimposition_cex :
    (full_pre cfgClamped1 0 stClamped1).u 0 ≠ cfgClamped1.u_D 0 := by
  norm_num [full_pre, stClamped1, ones1, cfgClamped1]

/-- Claim C6 (amended): in the lumped-mass branch, immediately after the
acceleration update and before the corrector, the boundary conditions are
re-imposed on `u_n`, `v_n` and `a_{n+1}` — constrained degrees of freedom
are set back to the prescribed boundary value (zero for the clamped run,
including rate and acceleration), free ones are untouched; in the
full-mass branch only the solve itself imposes the boundary condition, on
the acceleration, while `u_n` and `v_n` are left unchanged. -/
theorem explicit_bc_reimposition {nn : ℕ} (cfg : ExpCfg nn) (n : ℕ) (s : State nn)
    (hD : cfg.u_D = 0) :
    (∀ i, cfg.bc_dofs i = true →
      (lumped_pre cfg n s).u i = cfg.u_D i ∧ (lumped_pre cfg n s).v i = 0 ∧
        (lumped_pre cfg n s).a i = 0) ∧
    (∀ i, cfg.bc_dofs i = false →
      (lumped_pre cfg n s).u i = s.u i ∧ (lumped_pre cfg n s).v i = s.v i ∧
        (lumped_pre cfg n s).a i = a_solve_lumped cfg n s i) ∧
    (full_pre cfg n s).u = s.u ∧ (full_pre cfg n s).v = s.v ∧
    (∀ i, cfg.bc_dofs i = true → (full_pre cfg n s).a i = 0) := by
  refine ⟨fun i hi => ?_, fun i hi => ?_, rfl, rfl, fun i hi => ?_⟩
  · simp [lumped_pre, set_bc, hi, hD]
  · simp [lumped_pre, set_bc, hi]
  · show linear_solve cfg.bc_dofs cfg.u_D cfg.mass _ i = 0
    rw [hD]
    exact linear_solve_bc_dof _ _ _ i hi

/-- Witness for `explicit_bc_reimposition`: the clamped one-dof run
`cfgBc1` at step `0` from the zero state. -/
theorem explicit_bc_reimposition_witness :
    cfgBc1.u_D = 0 ∧
    ((∀ i, cfgBc1.bc_dofs i = true →
      (lumped_pre cfgBc1 0 (zeroState 1)).u i = cfgBc1.u_D i ∧
        (lumped_pre cfgBc1 0 (zeroState 1)).v i = 0 ∧
        (lumped_pre cfgBc1 0 (zeroState 1)).a i = 0) ∧
    (∀ i, cfgBc1.bc_dofs i = false →
      (lumped_pre cfgBc1 0 (zeroState 1)).u i = (zeroState 1).u i ∧
        (lumped_pre cfgBc1 0 (zeroState 1)).v i = (zeroState 1).v i ∧
        (lumped_pre cfgBc1 0 (zeroState 1)).a i = a_solve_lumped cfgBc1 0 (zeroState 1) i) ∧
    (full_pre cfgBc1 0 (zeroState 1)).u = (zeroState 1).u ∧
    (full_pre cfgBc1 0 (zeroState 1)).v = (zeroState 1).v ∧
    (∀ i, cfgBc1.bc_dofs i = true → (full_pre cfgBc1 0 (zeroState 1)).a i = 0)) :=
  ⟨rfl, explicit_bc_reimposition cfgBc1 0 (zeroState 1) rfl⟩

/-- With zero peak traction and the linear model, the assembled net force
at the zero state vanishes. -/
theorem f_load_zero {nn : ℕ} (cfg : ExpCfg nn) (hlin : cfg.use_linear_model = true)
    (hsig : cfg.sigma_max = 0) (t : ℚ) :
    f_load cfg 0 0 t = 0 := by
  simp [f_load, f_ext, hsig, stiffness, hlin, load_eval]

/-- An unloaded clamped linear lumped-mass step fixes the zero state. -/
theorem lumped_step_zero {nn : ℕ} (cfg : ExpCfg nn) (hlin : cfg.use_linear_model = true)
    (hsig : cfg.sigma_max = 0) (hD : cfg.u_D = 0) (n : ℕ) :
    lumped_step cfg n (zeroState nn) = zeroState nn := by
  have hf := f_load_zero cfg hlin hsig (((n : ℚ) + 1) * cfg.dt)
  ext i <;>
    simp [lumped_step, corrector, lumped_pre, a_solve_lumped, set_bc, zeroState, hD, hf]

/-- An unloaded clamped linear full-mass step fixes the zero state. -/
theorem full_step_zero {nn : ℕ} (cfg : ExpCfg nn) (hlin : cfg.use_linear_model = true)
    (hsig : cfg.sigma_max = 0) (hD : cfg.u_D = 0) (n : ℕ) :
    full_step cfg n (zeroState nn) = zeroState nn := by
  have hs : linear_solve cfg.bc_dofs cfg.u_D cfg.mass
      (f_load cfg 0 0 (((n : ℚ) + 1) * cfg.dt)) = 0 := by
    rw [f_load_zero cfg hlin hsig, hD, linear_solve_zero]
  ext i <;> simp [full_step, corrector, full_pre, zeroState, hs]

/-- Claim C7: for the explicit scheme (both mass treatments) with zero
peak load, the linear model, the clamped (zero) boundary value and the
zero initial state, after every step the displacement holds the
prescribed boundary value on the constrained degrees of freedom and zero
on all the others — the whole trajectory is the zero state. -/
theorem trivial_equilibrium {nn : ℕ} (cfg : ExpCfg nn)
    (hlin : cfg.use_linear_model = true) (hsig : cfg.sigma_max = 0)
    (hD : cfg.u_D = 0) (n : ℕ) :
    run_lumped cfg (zeroState nn) n = zeroState nn ∧
    run_full cfg (zeroState nn) n = zeroState nn ∧
    (∀ i, cfg.bc_dofs i = true → (run_lumped cfg (zeroState nn) n).u i = cfg.u_D i ∧
      (run_full cfg (zeroState nn) n).u i = cfg.u_D i) ∧
    (∀ i, cfg.bc_dofs i = false → (run_lumped cfg (zeroState nn) n).u i = 0 ∧
      (run_full cfg (zeroState nn) n).u i = 0) := by
  have hLF : run_lumped cfg (zeroState nn) n = zeroState nn ∧
      run_full cfg (zeroState nn) n = zeroState nn := by
    induction n with
    | zero => exact ⟨rfl, rfl⟩
    | succ n ih =>
      constructor
      · show lumped_step cfg n (run_lumped cfg (zeroState nn) n) = zeroState nn
        rw [ih.1, lumped_step_zero cfg hlin hsig hD]
      · show full_step cfg n (run_full cfg (zeroState nn) n) = zeroState nn
        rw [ih.2, full_step_zero cfg hlin hsig hD]
  obtain ⟨hL, hF⟩ := hLF
  refine ⟨hL, hF, fun i _ => ?_, fun i _ => ?_⟩ <;>
    rw [hL, hF] <;> constructor <;> simp [zeroState, hD]

/-- Witness for `trivial_equilibrium`: an unloaded clamped one-dof run
after three steps. -/
theorem trivial_equilibrium_witness :
    cfgQuiet1.use_linear_model = true ∧ cfgQuiet1.sigma_max = 0 ∧ cfgQuiet1.u_D = 0 ∧
    (run_lumped cfgQuiet1 (zeroState 1) 3 = zeroState 1 ∧
    run_full cfgQuiet1 (zeroState 1) 3 = zeroState 1 ∧
    (∀ i, cfgQuiet1.bc_dofs i = true →
      (run_lumped cfgQuiet1 (zeroState 1) 3).u i = cfgQuiet1.u_D i ∧
      (run_full cfgQuiet1 (zeroState 1) 3).u i = cfgQuiet1.u_D i) ∧
    (∀ i, cfgQuiet1.bc_dofs i = false →
      (run_lumped cfgQuiet1 (zeroState 1) 3).u i = 0 ∧
      (run_full cfgQuiet1 (zeroState 1) 3).u i = 0)) :=
  ⟨rfl, rfl, rfl, trivial_equilibrium cfgQuiet1 rfl rfl rfl 3⟩

/-- The recursive lumped trajectory is the loop `for n in range(N)`,
folded in order over the step indices. -/
theorem run_lumped_eq_foldl {nn : ℕ} (cfg : ExpCfg nn) (s0 : State nn) (N : ℕ) :
    run_lumped cfg s0 N = List.foldl (fun s n => lumped_step cfg n s) s0 (List.range N) := by
  induction N with
  | zero => rfl
  | succ N ih =>
    show lumped_step cfg N (run_lumped cfg s0 N) = _
    rw [List.range_succ, List.foldl_append, ← ih, List.foldl_cons, List.foldl_nil]

/-- The recursive full-mass trajectory is the loop `for n in range(N)`. -/
theorem run_full_eq_foldl {nn : ℕ} (cfg : ExpCfg nn) (s0 : State nn) (N : ℕ) :
    run_full cfg s0 N = List.foldl (fun s n => full_step cfg n s) s0 (List.range N) := by
  induction N with
  | zero => rfl
  | succ N ih =>
    show full_step cfg N (run_full cfg s0 N) = _
    rw [List.range_succ, List.foldl_append, ← ih, List.foldl_cons, List.foldl_nil]

/-- The recursive Newmark trajectory is the loop `for n in range(N)`. -/
theorem run_newmark_eq_foldl {nn : ℕ} (cfg : NmkCfg nn) (s0 : State nn) (N : ℕ) :
    run_newmark cfg s0 N = List.foldl (fun s n => newmark_step cfg n s) s0 (List.range N) := by
  induction N with
  | zero => rfl
  | succ N ih =>
    show newmark_step cfg N (run_newmark cfg s0 N) = _
    rw [List.range_succ, List.foldl_append, ← ih, List.foldl_cons, List.foldl_nil]

/-- Claim C9: every time-stepping loop, explicit and implicit, runs for
exactly the declared `num_steps` iterations — the trajectory is the fold
of the step function over the index list `range(num_steps)`, which has
exactly `num_steps` entries in order, no step skipped, repeated or added
— and each iteration advances the discrete time by the constant
`Δt = t_end/num_steps`. -/
theorem fixed_horizon {nn : ℕ} (cfgE : ExpCfg nn) (cfgN : NmkCfg nn) (s0 : State nn) :
    run_lumped cfgE s0 cfgE.num_steps
      = List.foldl (fun s n => lumped_step cfgE n s) s0 (List.range cfgE.num_steps) ∧
    run_full cfgE s0 cfgE.num_steps
      = List.foldl (fun s n => full_step cfgE n s) s0 (List.range cfgE.num_steps) ∧
    run_newmark cfgN s0 cfgN.num_steps
      = List.foldl (fun s n => newmark_step cfgN n s) s0 (List.range cfgN.num_steps) ∧
    (List.range cfgE.num_steps).length = cfgE.num_steps ∧
    (∀ n : ℕ, times cfgE (n + 1) = times cfgE n + cfgE.t_end / cfgE.num_steps) ∧
    (∀ n : ℕ, timesN cfgN (n + 1) = timesN cfgN n + cfgN.t_end / cfgN.num_steps) := by
  refine ⟨run_lumped_eq_foldl cfgE s0 cfgE.num_steps,
    run_full_eq_foldl cfgE s0 cfgE.num_steps,
    run_newmark_eq_foldl cfgN s0 cfgN.num_steps,
    List.length_range cfgE.num_steps, fun n => ?_, fun n => ?_⟩
  · rw [times, times, ExpCfg.dt]
    push_cast
    ring
  · rw [timesN, timesN, NmkCfg.dt]
    push_cast
    ring

/-- Applying the exact inverse of a diagonal matrix with nonzero entries
is the elementwise division by the diagonal. -/
theorem matInv_diagonal_mulVec {nn : ℕ} (e : Vec nn) (he : ∀ i, e i ≠ 0)
    (f : Vec nn) (i : Fin nn) :
    (matInv (Matrix.diagonal e) *ᵥ f) i = (e i)⁻¹ * f i := by
  have hP : (∏ j ∈ Finset.univ.erase i, e j) ≠ 0 :=
    Finset.prod_ne_zero_iff.mpr fun j _ => he j
  rw [matInv, Matrix.det_diagonal, Matrix.adjugate_diagonal, Matrix.smul_mulVec_assoc,
    Pi.smul_apply, Matrix.mulVec_diagonal, smul_eq_mul,
    ← Finset.mul_prod_erase Finset.univ e (Finset.mem_univ i), mul_inv]
  field_simp
  rw [mul_comm (e i), mul_div_mul_left _ _ hP]

/-- On a diagonal operator, the constrained system matrix is again
diagonal, with ones at the constrained degrees of freedom. -/
theorem bc_matrix_diagonal {nn : ℕ} (bc : Fin nn → Bool) (d : Vec nn) :
    bc_matrix bc (Matrix.diagonal d) =
      Matrix.diagonal (fun i => if bc i then 1 else d i) := by
  ext i j
  simp only [bc_matrix, Matrix.of_apply, Matrix.diagonal_apply]
  by_cases hbi : bc i <;> by_cases hbj : bc j <;> by_cases hij : i = j <;>
    simp [hbi, hbj, hij]

/-- On a diagonal operator with nonzero free diagonal entries and zero
prescribed values, the modelled external solve is the elementwise
division by the diagonal on free degrees of freedom and zero on
constrained ones. -/
theorem linear_solve_diagonal {nn : ℕ} (bc : Fin nn → Bool) (d : Vec nn)
    (hfree : ∀ i, bc i = false → d i ≠ 0) (f : Vec nn) (i : Fin nn) :
    linear_solve bc 0 (Matrix.diagonal d) f i
      = if bc i then 0 else (d i)⁻¹ * f i := by
  have he : ∀ j, (if bc j then (1 : ℚ) else d j) ≠ 0 := by
    intro j
    cases hb : bc j with
    | false => simpa [hb] using hfree j hb
    | true => simp [hb]
  rw [linear_solve, bc_matrix_diagonal,
    matInv_diagonal_mulVec _ he (bc_rhs bc 0 (Matrix.diagonal d) f) i]
  cases hb : bc i with
  | false => simp [hb, bc_rhs]
  | true => simp [hb, bc_rhs]

/-- On a clamped diagonal-mass run, from a state respecting the clamp,
one full-mass step equals one lumped-mass step. -/
theorem full_step_eq_lumped_step {nn : ℕ} (cfg : ExpCfg nn) (d : Vec nn)
    (hM : cfg.mass = Matrix.diagonal d) (hD : cfg.u_D = 0)
    (hfree : ∀ i, cfg.bc_dofs i = false → d i ≠ 0)
    (n : ℕ) (s : State nn)
    (hsu : ∀ i, cfg.bc_dofs i = true → s.u i = 0)
    (hsv : ∀ i, cfg.bc_dofs i = true → s.v i = 0) :
    full_step cfg n s = lumped_step cfg n s := by
  have hacc : linear_solve cfg.bc_dofs cfg.u_D cfg.mass
      (f_load cfg s.u s.v (((n : ℚ) + 1) * cfg.dt))
      = set_bc cfg.bc_dofs cfg.u_D (a_solve_lumped cfg n s) := by
    funext i
    rw [hD, hM, linear_solve_diagonal cfg.bc_dofs d hfree _ i]
    cases hb : cfg.bc_dofs i with
    | false =>
      simp [hb, set_bc, a_solve_lumped, M_lumped_inv, hM,
        Matrix.mulVec_diagonal, one_div]
    | true => simp [hb, set_bc]
  have hbu : set_bc cfg.bc_dofs cfg.u_D s.u = s.u :=
    set_bc_eq_self _ _ _ fun i hi => by rw [hD, Pi.zero_apply]; exact hsu i hi
  have hbv : set_bc cfg.bc_dofs cfg.u_D s.v = s.v :=
    set_bc_eq_self _ _ _ fun i hi => by rw [hD, Pi.zero_apply]; exact hsv i hi
  rw [full_step, lumped_step, full_pre, lumped_pre, hacc, hbu, hbv]

/-- The lumped-mass step preserves the clamp on displacement and
velocity along a trajectory of a clamped run. -/
theorem run_lumped_state_bc {nn : ℕ} (cfg : ExpCfg nn) (hD : cfg.u_D = 0)
    (s0 : State nn)
    (h0u : ∀ i, cfg.bc_dofs i = true → s0.u i = 0)
    (h0v : ∀ i, cfg.bc_dofs i = true → s0.v i = 0) (n : ℕ) :
    (∀ i, cfg.bc_dofs i = true → (run_lumped cfg s0 n).u i = 0) ∧
    (∀ i, cfg.bc_dofs i = true → (run_lumped cfg s0 n).v i = 0) := by
  induction n with
  | zero => exact ⟨h0u, h0v⟩
  | succ n _ =>
    constructor <;> intro i hi <;>
      simp [run_lumped, lumped_step, corrector, lumped_pre, set_bc, hi, hD]

/-- Claim C5 (amended): the full-mass and lumped-mass explicit variants
produce the same trajectory exactly when the assembled mass matrix is
diagonal with nonzero free diagonal entries (so that the consistent
solve is the elementwise division), the prescribed boundary value is
zero, and the initial state respects the clamp; in general — a
non-diagonal consistent mass, an initial state violating the clamp
(which only the lumped branch resets), or a singular diagonal — the two
trajectories differ. -/
theorem lumped_full_equiv {nn : ℕ} (cfg : ExpCfg nn) (d : Vec nn)
    (hM : cfg.mass = Matrix.diagonal d) (hD : cfg.u_D = 0)
    (hfree : ∀ i, cfg.bc_dofs i = false → d i ≠ 0)
    (s0 : State nn)
    (h0u : ∀ i, cfg.bc_dofs i = true → s0.u i = 0)
    (h0v : ∀ i, cfg.bc_dofs i = true → s0.v i = 0) (N : ℕ) :
    run_full cfg s0 N = run_lumped cfg s0 N := by
  induction N with
  | zero => rfl
  | succ N ih =>
    show full_step cfg N (run_full cfg s0 N) = lumped_step cfg N (run_lumped cfg s0 N)
    rw [ih]
    exact full_step_eq_lumped_step cfg d hM hD hfree N _
      (run_lumped_state_bc cfg hD s0 h0u h0v N).1
      (run_lumped_state_bc cfg hD s0 h0u h0v N).2

/-- Witness for `lumped_full_equiv`: a one-dof free run with diagonal
mass `[2]`, two steps. -/
theorem lumped_full_equiv_witness :
    cfgDiag1.mass = Matrix.diagonal ![2] ∧ cfgDiag1.u_D = 0 ∧
    (∀ i, cfgDiag1.bc_dofs i = false → (![2] : Vec 1) i ≠ 0) ∧
    (∀ i, cfgDiag1.bc_dofs i = true → (zeroState 1).u i = 0) ∧
    (∀ i, cfgDiag1.bc_dofs i = true → (zeroState 1).v i = 0) ∧
    run_full cfgDiag1 (zeroState 1) 2 = run_lumped cfgDiag1 (zeroState 1) 2 := by
  have h1 : cfgDiag1.mass = Matrix.diagonal ![2] := by
    ext i j
    fin_cases i
    fin_cases j
    simp [cfgDiag1]
  have h3 : ∀ i, cfgDiag1.bc_dofs i = false → (![2] : Vec 1) i ≠ 0 := by
    intro i _
    fin_cases i
    norm_num
  have h4 : ∀ i, cfgDiag1.bc_dofs i = true → (zeroState 1).u i = 0 := fun i _ => rfl
  have h5 : ∀ i, cfgDiag1.bc_dofs i = true → (zeroState 1).v i = 0 := fun i _ => rfl
  exact ⟨h1, rfl, h3, h4, h5, lumped_full_equiv cfgDiag1 ![2] h1 rfl h3 (zeroState 1) h4 h5 2⟩

/-- Claim C5, counterexample: the full-mass and lumped-mass explicit
variants are not trajectory-equivalent — they differ after one step
(i) on a non-diagonal consistent mass matrix (`cfgFree2`), (ii) from an
initial state violating the clamp, which only the lumped branch resets
(`cfgClamped1`), and (iii) on a singular diagonal mass (`cfgSing2`). -/
theorem lumped_full_not_equiv :
    (run_full cfgFree2 (zeroState 2) 1).a 0 ≠ (run_lumped cfgFree2 (zeroState 2) 1).a 0 ∧
    (run_full cfgClamped1 stClamped1 1).u 0 ≠ (run_lumped cfgClamped1 stClamped1 1).u 0 ∧
    (run_full cfgSing2 (zeroState 2) 1).a 1 ≠ (run_lumped cfgSing2 (zeroState 2) 1).a 1 := by
  refine ⟨?_, ?_, ?_⟩
  · norm_num [run_full, run_lumped, full_step, lumped_step, corrector, full_pre, lumped_pre,
      linear_solve, bc_matrix, bc_rhs, matInv, a_solve_lumped, M_lumped_inv, set_bc,
      f_load, f_ext, load_eval, stiffness, damping, cfgFree2, ExpCfg.dt, zeroState,
      Matrix.det_fin_two, Matrix.adjugate_fin_two, Matrix.mulVec, dotProduct,
      Fin.sum_univ_two, Matrix.smul_apply]
  · norm_num [run_full, run_lumped, full_step, lumped_step, corrector, full_pre, lumped_pre,
      linear_solve, bc_matrix, bc_rhs, matInv, a_solve_lumped, M_lumped_inv, set_bc,
      f_load, f_ext, load_eval, stiffness, damping, cfgClamped1, stClamped1, ones1,
      ExpCfg.dt, Matrix.det_fin_one, Matrix.adjugate_fin_one, Matrix.mulVec, dotProduct,
      Fin.sum_univ_one, Matrix.smul_apply]
  · norm_num [run_full, run_lumped, full_step, lumped_step, corrector, full_pre, lumped_pre,
      linear_solve, bc_matrix, bc_rhs, matInv, a_solve_lumped, M_lumped_inv, set_bc,
      f_load, f_ext, load_eval, stiffness, damping, cfgSing2, ExpCfg.dt, zeroState,
      Matrix.det_fin_two, Matrix.adjugate_fin_two, Matrix.mulVec, dotProduct,
      Fin.sum_univ_two, Matrix.smul_apply, Matrix.diagonal_apply]

end MES01
